import Mathlib

/-!
# Verification of the layer-computation engine (`NN/Basic/Layers.py`)

This file gives a shallow embedding, over `ℚ`-valued list matrices, of the
parts of `src/NN/Basic/Layers.py` that the specification's claims are about:

* the `Layer.bp` backpropagation dispatch (lines 99-106);
* `ConvLayer.feed_shape` and `ConvPoolLayer.feed_shape` shape validation and
  output-size computation (lines 176-191 and 231-247);
* the `MaxPool` forward and backward passes, both the fast "reshape" path and
  the naive sliding-window fallback (lines 509-566);
* the `CostLayer` loss gradients and the `bp_first` combined gradient
  (lines 707-712 and 736-777);
* the `Normalize` sub-layer forward pass with its running statistics
  (lines 636-650);
* the stored-versus-derived root reference of sub-layers (lines 130-148).

numpy float arrays are modelled as `List (List ℚ)`; the transcendental square
root used by `Normalize` is a parameter of the embedding.  Machine floats are
not modelled: all statements are about the exact rational data flow.

The file is organized as definitions first (the embedding), then helper
lemmas, then the claim theorems.
-/

/-! ## Matrices as lists of rows -/

/-- A dense 2-D array (one numpy matrix, or one spatial slice of a 4-D
tensor), row major. -/
abbrev Mat : Type := List (List ℚ)

/-- A 4-D tensor (batch, channel, row, column) as nested lists. -/
abbrev Tensor4 : Type := List (List Mat)

/-- Entry read; out-of-range reads (which the source never performs on the
shapes it validates) default to `0`. -/
def get2 (m : Mat) (r c : Nat) : ℚ := (m.getD r []).getD c 0

/-- Build an `h × w` matrix from an entry function. -/
def mkGrid (h w : Nat) (f : Nat → Nat → ℚ) : Mat :=
  (List.range h).map (fun r => (List.range w).map (f r))

/-- Matrix transpose (numpy `w.T`). -/
def transposeM (m : Mat) : Mat :=
  match m with
  | [] => []
  | r :: _ => (List.range r.length).map (fun j => m.map (fun row => row.getD j 0))

/-- Matrix product (numpy `a.dot(b)`). -/
def matMul (a b : Mat) : Mat :=
  a.map (fun row => (transposeM b).map (fun col => (List.zipWith (· * ·) row col).sum))

/-- Elementwise product (numpy `*` on same-shape arrays). -/
def hadamard (a b : Mat) : Mat :=
  List.zipWith (fun r s => List.zipWith (· * ·) r s) a b

/-- Elementwise binary operation on two same-shape matrices. -/
def zipWith2D (f : ℚ → ℚ → ℚ) (a b : Mat) : Mat :=
  List.zipWith (fun r s => List.zipWith f r s) a b

/-- Scalar times matrix. -/
def scalarM (c : ℚ) (a : Mat) : Mat := a.map (fun r => r.map (fun x => c * x))

/-- Elementwise map over a matrix. -/
def mapM2 (f : ℚ → ℚ) (a : Mat) : Mat := a.map (fun r => r.map f)

/-- Maximum of a list, `0` for the empty list (the source only takes maxima
of nonempty windows). -/
def listMax : List ℚ → ℚ
  | [] => 0
  | a :: t => t.foldl max a

/-- How many entries of `l` are equal to `v`. -/
def countEq (l : List ℚ) (v : ℚ) : Nat := (l.filter (fun a => decide (a = v))).length

/-! ## `ConvLayer.feed_shape` and `ConvPoolLayer.feed_shape`

Lines 176-191 and 231-247 of the source.  Construction failure
(`BuildLayerError`) is modelled as `none`; success returns the computed
`(out_h, out_w)`.  Python's `int()` on a float quotient truncates toward
zero, which is `Int.tdiv`.  Note that the source computes `full_height`
from `width` and `full_width` from `height` (lines 180 and 236) — the
embedding reproduces this verbatim. -/

/-- Embedding of `ConvLayer.feed_shape` (lines 176-191).  The channel and
filter counts are irrelevant to the check and the output size and are
omitted.  `height, width` describe the incoming spatial shape,
`filter_height, filter_width` the kernel. -/
def ConvLayer.feed_shape (height width filter_height filter_width stride padding : ℤ) :
    Option (ℤ × ℤ) :=
  let full_height := width + 2 * padding
  let full_width := height + 2 * padding
  if (full_height - filter_height) % stride ≠ 0 ∨ (full_width - filter_width) % stride ≠ 0 then
    none
  else
    some (Int.tdiv (height + 2 * padding - filter_height) stride + 1,
          Int.tdiv (width + 2 * padding - filter_width) stride + 1)

/-- Embedding of `ConvPoolLayer.feed_shape` (lines 231-247).  Identical
validation (including the same `full_height`-from-`width` computation), but
the output size omits the padding term. -/
def ConvPoolLayer.feed_shape (height width pool_height pool_width stride padding : ℤ) :
    Option (ℤ × ℤ) :=
  let full_height := width + 2 * padding
  let full_width := height + 2 * padding
  if (full_height - pool_height) % stride ≠ 0 ∨ (full_width - pool_width) % stride ≠ 0 then
    none
  else
    some (Int.tdiv (height - pool_height) stride + 1,
          Int.tdiv (width - pool_width) stride + 1)

/-! ## Activation derivatives (lines 407-472)

Each activation's `_derivative` is a closed form in the forward output `y`.
Only the ones the claims exercise are needed. -/

/-- `Sigmoid._derivative` (line 421-422): `y * (1 - y)` elementwise. -/
def Sigmoid.derivativeM (y : Mat) : Mat := mapM2 (fun a => a * (1 - a)) y

/-- `Tanh._derivative` (line 412-413): `1 - y ** 2` elementwise. -/
def Tanh.derivativeM (y : Mat) : Mat := mapM2 (fun a => 1 - a ^ 2) y

/-- `Dropout._derivative` (line 588-589): `prob_inv * delta`. -/
def Dropout.derivativeM (prob_inv : ℚ) (delta : Mat) : Mat := scalarM prob_inv delta

/-! ## `Layer.bp` (lines 99-106)

The backpropagation dispatch of the base class.  The node's own derivative
is passed in two forms matching the two Python call shapes:
`derivSub y delta` for the sub-layer call `self._derivative(y, delta)` and
`derivSelf y` for the root call `self._derivative(y)`.  `rootDeriv` stands
for `self._root.derivative`, the derivative of the node's *stored* `_root`
reference (see the chain-level embedding below for that distinction). -/

/-- Embedding of `Layer.bp` (lines 99-106).  `childIsSub` is
`self.child is not None and isinstance(self.child, SubLayer)`. -/
def Layer.bp (selfIsSub childIsSub : Bool)
    (derivSub : Mat → Mat → Mat) (derivSelf : Mat → Mat) (rootDeriv : Mat → Mat)
    (y w prev_delta : Mat) : Mat :=
  if childIsSub then
    if !selfIsSub then prev_delta
    else derivSub y prev_delta
  else if selfIsSub then
    derivSub y (hadamard (matMul prev_delta (transposeM w)) (rootDeriv y))
  else
    hadamard (matMul prev_delta (transposeM w)) (derivSelf y)

/-! ## `CostLayer` loss gradients (lines 736-777) and `bp_first` (707-712)

The four selectable losses, in their gradient (`diff=True`) form.  `CostLayer`
dispatches on the stored loss name; the four names are modelled as an
enumeration.  `bp_first` checks the root's `name` string, so the root is
passed as its name together with its derivative function. -/

/-- The four selectable loss functions of `CostLayer` (lines 689-694). -/
inductive CostFunc
  | MSE
  | SVM
  | CrossEntropy
  | LogLikelihood
deriving DecidableEq

/-- `np.argmax` along a row: index of the first occurrence of the row
maximum. -/
def rowArgmax (r : List ℚ) : Nat := r.findIdx (fun a => decide (a = listMax r))

/-- The margin row of `CostLayer._svm` (lines 744-749): `margins[j] =
max(0, y_pred[j] − correct_class_score + 1)`, zeroed at the correct class. -/
def svmMarginRow (yr pr : List ℚ) : List ℚ :=
  let yc := rowArgmax yr
  let cs := pr.getD yc 0
  (List.range pr.length).map (fun j => if j = yc then 0 else max 0 (pr.getD j 0 - cs + 1))

/-- `CostLayer._svm` in gradient form (lines 744-758): indicator of
margin-violating classes, with the violation count subtracted at the
correct-class position, normalized by the batch size. -/
def CostLayer.svm_diff (y y_pred : Mat) : Mat :=
  let n : ℚ := (y_pred.length : ℚ)
  List.zipWith (fun yr pr =>
    let margins := svmMarginRow yr pr
    let num_pos : ℚ := ((margins.countP (fun a => decide (0 < a))) : ℕ)
    let yc := rowArgmax yr
    (List.range pr.length).map (fun j =>
      ((if 0 < margins.getD j 0 then (1 : ℚ) else 0) - (if j = yc then num_pos else 0)) / n))
    y y_pred

/-- `CostLayer._log_likelihood` in gradient form (lines 768-776) when the
cached `_batch_range` matches the batch: a copy of `y_pred` with `1`
subtracted, in each row, at that row's true-class index
(`y_pred[cls._batch_range, y_arg_max] -= 1`).  Assumes `y` and `y_pred`
have the same number of rows, as the loss contract requires. -/
def CostLayer.log_likelihood_diff (y y_pred : Mat) : Mat :=
  List.zipWith (fun yr pr =>
    (List.range pr.length).map (fun j =>
      if j = rowArgmax yr then pr.getD j 0 - 1 else pr.getD j 0))
    y y_pred

/-- `CostLayer._log_likelihood` in gradient form *with* the class-level
`_batch_range` cache (lines 769-776).  The cache holds the length of the
first batch ever seen and is never invalidated.  `y_pred[arange(r), amax]`
then broadcasts: if `r` equals the current batch size the subtraction is
rowwise; if `r = 1` (and the batch is larger) the single row index `0`
broadcasts against all the true-class columns, so row 0 alone is
decremented at every row's true-class column (numpy's buffered fancy-index
`-=` hits each position at most once); any other mismatch raises, modelled
as `none`.  Returns the result together with the updated cache. -/
def CostLayer.log_likelihood_diff_cached (cache : Option Nat) (y y_pred : Mat) :
    Option Mat × Option Nat :=
  let rng := cache.getD y_pred.length
  let amax := y.map rowArgmax
  if rng = y_pred.length then
    (some (CostLayer.log_likelihood_diff y y_pred), some rng)
  else if rng = 1 then
    (some (match y_pred with
      | [] => []
      | r0 :: rest =>
        ((List.range r0.length).map (fun j =>
          if j ∈ amax then r0.getD j 0 - 1 else r0.getD j 0)) :: rest), some rng)
  else
    (none, some rng)

/-- The gradient form of each selectable loss (`diff=True`):
`_mse` is `-y + y_pred` (line 738-739), `_cross_entropy` is
`-y/ŷ + (1-y)/(1-ŷ)` (line 762-763). -/
def CostLayer.cost_gradient : CostFunc → Mat → Mat → Mat
  | CostFunc.MSE => fun y yp => zipWith2D (fun a b => -a + b) y yp
  | CostFunc.SVM => CostLayer.svm_diff
  | CostFunc.CrossEntropy => fun y yp => zipWith2D (fun a b => -a / b + (1 - a) / (1 - b)) y yp
  | CostFunc.LogLikelihood => CostLayer.log_likelihood_diff

/-- Embedding of `CostLayer.bp_first` (lines 707-712).  `rootName` is
`self._root.name` and `rootDeriv` is `self._root.derivative`; the
log-likelihood gradient is taken in its batch-consistent form. -/
def CostLayer.bp_first (rootName : String) (rootDeriv : Mat → Mat)
    (cost : CostFunc) (y y_pred : Mat) : Mat :=
  if rootName = "Sigmoid" ∧ cost = CostFunc.CrossEntropy then
    zipWith2D (fun a b => a * (1 - b) - (1 - a) * b) y y_pred
  else if cost = CostFunc.LogLikelihood then
    scalarM (-(1/4)) (CostLayer.cost_gradient cost y y_pred)
  else
    hadamard (scalarM (-1) (CostLayer.cost_gradient cost y y_pred)) (rootDeriv y_pred)

/-! ## `Normalize._activate` (lines 636-650)

The forward pass of the batch-normalization sub-layer.  Rows are samples,
columns features; `np.mean`/`np.var` along `axis=0` are column statistics.
`np.sqrt` is transcendental, so the embedding is parametric in the square
root function `sqrtQ`; every statement below holds for all `sqrtQ`. -/

/-- The mutable per-node state `Normalize._activate` touches: batch
statistics, running estimates, caches, parameters and hyperparameters.
`none` models a Python attribute still holding `None`. -/
structure NormalizeState where
  sample_mean : Option (List ℚ)
  sample_var : Option (List ℚ)
  running_mean : Option (List ℚ)
  running_var : Option (List ℚ)
  x_cache : Option Mat
  x_normalized_cache : Option Mat
  gamma : List ℚ
  beta : List ℚ
  momentum : ℚ
  eps : ℚ
deriving DecidableEq

/-- Number of feature columns (`x.shape[1]`). -/
def widthOf (x : Mat) : Nat := (x.headD []).length

/-- Column means over the batch axis (`np.mean(x, axis=0)`). -/
def colMean (x : Mat) : List ℚ :=
  (List.range (widthOf x)).map (fun j => (x.map (fun r => r.getD j 0)).sum / (x.length : ℚ))

/-- Column population variances over the batch axis (`np.var(x, axis=0)`). -/
def colVar (x : Mat) : List ℚ :=
  (List.range (widthOf x)).map (fun j =>
    let mu := (x.map (fun r => r.getD j 0)).sum / (x.length : ℚ)
    (x.map (fun r => (r.getD j 0 - mu) ^ 2)).sum / (x.length : ℚ))

/-- `(x - mean) / sqrt(var + eps)` rowwise against column vectors. -/
def normalizeRows (sqrtQ : ℚ → ℚ) (x : Mat) (mean varv : List ℚ) (eps : ℚ) : Mat :=
  x.map (fun r => (List.range r.length).map (fun j =>
    (r.getD j 0 - mean.getD j 0) / sqrtQ (varv.getD j 0 + eps)))

/-- `gamma * x_normalized + beta` rowwise. -/
def scaleShiftRows (xn : Mat) (gamma beta : List ℚ) : Mat :=
  xn.map (fun r => (List.range r.length).map (fun j =>
    gamma.getD j 0 * r.getD j 0 + beta.getD j 0))

/-- Embedding of `Normalize._activate` (lines 636-650), returning the
output together with the post-call state.  Lines 637-638 lazily replace a
still-`None` running mean/variance by zero vectors *before* the
`predict` branch; the training branch computes batch statistics, caches,
and smooths the running estimates with the configured momentum; the
inference branch normalizes with the running estimates. -/
def Normalize.activate (sqrtQ : ℚ → ℚ) (st : NormalizeState) (x : Mat) (predict : Bool) :
    Mat × NormalizeState :=
  let rm := st.running_mean.getD (List.replicate (widthOf x) 0)
  let rv := st.running_var.getD (List.replicate (widthOf x) 0)
  if !predict then
    let mu := colMean x
    let v := colVar x
    let xn := normalizeRows sqrtQ x mu v st.eps
    let out := scaleShiftRows xn st.gamma st.beta
    (out, { st with
      sample_mean := some mu
      sample_var := some v
      x_cache := some x
      x_normalized_cache := some xn
      running_mean := some (List.zipWith
        (fun r m => st.momentum * r + (1 - st.momentum) * m) rm mu)
      running_var := some (List.zipWith
        (fun r v2 => st.momentum * r + (1 - st.momentum) * v2) rv v) })
  else
    let xn := normalizeRows sqrtQ x rm rv st.eps
    let out := scaleShiftRows xn st.gamma st.beta
    (out, { st with running_mean := some rm, running_var := some rv })

/-! ## The layer chain and the root reference (lines 60-66 and 130-148)

A network is a simple parent/child chain of nodes.  `Layer.root` returns
`self` for a root layer; `SubLayer.root` *walks* `parent` links to the
node with no parent (lines 139-144).  Separately, every sub-layer carries
a stored `_root` attribute (line 136), set through the `root` setter
(lines 146-148), and it is this stored attribute that `Layer.bp`
(line 105) and `CostLayer.bp_first` (lines 708-712) read.  Nodes are
modelled as entries of a list, with `parent`/`child`/`_root` as indices
into it. -/

/-- One node of a layer chain: its sub-layer flag, its links, its stored
`_root` index, its `name` (the class name the `bp_first` check compares),
and its `_derivative` in both call shapes. -/
structure ChainNode where
  is_sub_layer : Bool
  parent : Option Nat
  child : Option Nat
  root_stored : Option Nat
  name : String
  deriv_root : Mat → Mat
  deriv_sub : Mat → Mat → Mat

/-- Embedding of the `SubLayer.root` property (lines 139-144): start from
the node's parent and follow `parent` links while they exist; the fuel
bounds the walk (a well-formed chain is finite and acyclic).  Returns the
index of the reached parentless node, or `none` for a node with no parent
or a malformed chain. -/
def SubLayer.rootIdx (chain : List ChainNode) : Nat → Nat → Option Nat
  | 0, _ => none
  | fuel + 1, i =>
    match (chain.get? i).bind ChainNode.parent with
    | none => none
    | some p =>
      match chain.get? p with
      | none => none
      | some pnd =>
        match pnd.parent with
        | none => some p
        | some _ => SubLayer.rootIdx chain fuel p

/-- The node the stored `_root` index points at, if any. -/
def storedRoot (chain : List ChainNode) (nd : ChainNode) : Option ChainNode :=
  nd.root_stored.bind (fun r => chain.get? r)

/-- `self._root.derivative`: the derivative of the *stored* root.  A
still-unset `_root` would crash in Python; modelled as the empty result. -/
def storedRootDeriv (chain : List ChainNode) (nd : ChainNode) : Mat → Mat :=
  match storedRoot chain nd with
  | some rn => rn.deriv_root
  | none => fun _ => []

/-- `self._root.name` of the stored root (empty for an unset `_root`). -/
def storedRootName (chain : List ChainNode) (nd : ChainNode) : String :=
  match storedRoot chain nd with
  | some rn => rn.name
  | none => ""

/-- `self.child is not None and isinstance(self.child, SubLayer)`. -/
def childIsSubAt (chain : List ChainNode) (nd : ChainNode) : Bool :=
  match nd.child with
  | some c =>
    match chain.get? c with
    | some cn => cn.is_sub_layer
    | none => false
  | none => false

/-- `Layer.bp` invoked on node `i` of a chain: the root factor is taken
from the node's *stored* `_root` (line 105 reads `self._root.derivative`,
not the walking `root` property). -/
def Layer.bpAt (chain : List ChainNode) (i : Nat) (y w prev_delta : Mat) : Mat :=
  match chain.get? i with
  | none => []
  | some nd =>
    Layer.bp nd.is_sub_layer (childIsSubAt chain nd) nd.deriv_sub nd.deriv_root
      (storedRootDeriv chain nd) y w prev_delta

/-- `CostLayer.bp_first` invoked on node `i` of a chain: both the
root-name check (line 708) and the root derivative (line 712) come from
the stored `_root`. -/
def CostLayer.bp_firstAt (chain : List ChainNode) (i : Nat) (cost : CostFunc)
    (y y_pred : Mat) : Mat :=
  match chain.get? i with
  | none => []
  | some nd =>
    CostLayer.bp_first (storedRootName chain nd) (storedRootDeriv chain nd) cost y y_pred

/-- A three-node example chain: a Sigmoid root (index 0) whose child is a
plain pass-through sub-layer (index 1), plus an unrelated Tanh root
(index 2).  Node 1's parent chain leads to node 0, but its stored `_root`
was set to node 2. -/
def exampleChain : List ChainNode :=
  [⟨false, none, some 1, none, "Sigmoid", Sigmoid.derivativeM, fun _ d => d⟩,
   ⟨true, some 0, none, some 2, "Sub", fun _ => [], fun _ d => d⟩,
   ⟨false, none, none, none, "Tanh", Tanh.derivativeM, fun _ d => d⟩]

/-! ## `MaxPool` (lines 507-566)

Both `_activate` paths and both `_derivative` paths, phrased per spatial
slice; the batch and channel axes of the 4-D tensors are independent maps
over slices (the fallback loops iterate `i` over samples and `j` over
channels; the fast path's reshape/mask/divide operations act within each
`(sample, channel)` plane), so the 4-D operations are `List.map`s of the
2-D cores below. -/

/-- Elements of the window of `x` with top-left corner `(r0, c0)` and size
`ph × pw`, row major. -/
def windowElems (x : Mat) (r0 c0 ph pw : Nat) : List ℚ :=
  (List.range ph).flatMap (fun i => (List.range pw).map (fun j => get2 x (r0 + i) (c0 + j)))

/-- The fast-path applicability test of `MaxPool._activate` (lines
514-516): the window is square, its side equals the stride, and it tiles
the spatial extent with no remainder. -/
def MaxPool.usesReshape (height width ph pw sd : Nat) : Bool :=
  (ph == pw && pw == sd) && (height % ph == 0 && width % pw == 0)

/-- Fast forward path (lines 517-521) on one spatial slice: reshape into
tiles of size `ph × pw` and reduce, first over the within-tile row axis
(`max(axis=3)`), then over the within-tile column axis (`max(axis=4)`). -/
def MaxPool.activateReshape (x : Mat) (ph pw out_h out_w : Nat) : Mat :=
  mkGrid out_h out_w (fun k l =>
    listMax ((List.range pw).map (fun j =>
      listMax ((List.range ph).map (fun i => get2 x (k * ph + i) (l * pw + j))))))

/-- Fallback forward path (lines 523-530) on one spatial slice: an
explicit loop over output cells, each the maximum of its sliding window. -/
def MaxPool.activateNaive (x : Mat) (ph pw sd out_h out_w : Nat) : Mat :=
  mkGrid out_h out_w (fun k l => listMax (windowElems x (k * sd) (l * sd) ph pw))

/-- Fast backward path (lines 542-551) on one spatial slice: a boolean
mask of positions equal to the cached forward output of their tile
(`x_reshaped == out_newaxis`), the upstream value scattered through it,
then everything divided by the per-tile mask count
(`dx_reshaped /= np.sum(mask, axis=(3, 5), keepdims=True)`).  `height`
and `width` are the cached input's spatial extent, `x` the cached input,
`y` the forward output, `delta` the upstream gradient. -/
def MaxPool.derivativeReshape (height width ph pw : Nat) (x y delta : Mat) : Mat :=
  mkGrid height width (fun r c =>
    let k := r / ph
    let l := c / pw
    let cnt : Nat := countEq (windowElems x (k * ph) (l * pw) ph pw) (get2 y k l)
    if get2 x r c = get2 y k l then get2 delta k l / (cnt : ℚ) else 0)

/-- Does output window `kl` cover input position `(r, c)`?  (The slice
`dx[k*sd : ph + k*sd, l*sd : pw + l*sd]` of lines 561-563.) -/
def coversB (ph pw sd : Nat) (r c : Nat) (kl : Nat × Nat) : Bool :=
  decide (kl.1 * sd ≤ r ∧ r < kl.1 * sd + ph ∧ kl.2 * sd ≤ c ∧ c < kl.2 * sd + pw)

/-- One iteration of the fallback backward loop body (lines 561-563): the
window region of `dx` is *assigned* (not accumulated)
`(window == np.max(window)) * delta[k, l]`; entries outside the region
keep their previous value. -/
def writeWindow (x delta : Mat) (ph pw sd height width : Nat) (dx : Mat)
    (kl : Nat × Nat) : Mat :=
  let wmax := listMax (windowElems x (kl.1 * sd) (kl.2 * sd) ph pw)
  mkGrid height width (fun r c =>
    if coversB ph pw sd r c kl then
      if get2 x r c = wmax then get2 delta kl.1 kl.2 else 0
    else get2 dx r c)

/-- The `(k, l)` iteration order of the two inner fallback loops (`k`
major, `l` minor — lines 559-560). -/
def loopPairs (out_h out_w : Nat) : List (Nat × Nat) :=
  (List.range out_h).flatMap (fun k => (List.range out_w).map (fun l => (k, l)))

/-- Fallback backward path (lines 552-563) on one spatial slice: start
from `np.zeros_like` and run the window writes in loop order. -/
def MaxPool.derivativeNaive (x delta : Mat) (ph pw sd height width out_h out_w : Nat) : Mat :=
  (loopPairs out_h out_w).foldl (writeWindow x delta ph pw sd height width)
    (mkGrid height width (fun _ _ => 0))

/-- The last window, in loop order, that covers input position `(r, c)`. -/
def lastCover (ph pw sd out_h out_w r c : Nat) : Option (Nat × Nat) :=
  ((loopPairs out_h out_w).filter (coversB ph pw sd r c)).getLast?

/-- What window `kl` writes at a position it covers: the upstream value if
the position holds the window maximum, else `0`. -/
def windowContribution (x delta : Mat) (ph pw sd : Nat) (kl : Nat × Nat) (r c : Nat) : ℚ :=
  if get2 x r c = listMax (windowElems x (kl.1 * sd) (kl.2 * sd) ph pw) then
    get2 delta kl.1 kl.2
  else 0

/-- Every pooling window of `x` attains its maximum at exactly one
position. -/
def MaxPool.noTies (x : Mat) (ph pw sd out_h out_w : Nat) : Prop :=
  ∀ k l, k < out_h → l < out_w →
    countEq (windowElems x (k * sd) (l * sd) ph pw)
      (listMax (windowElems x (k * sd) (l * sd) ph pw)) = 1

/-- The full 4-D `MaxPool._activate` (lines 509-531): path choice from the
window/stride/extent test, then the per-slice computation mapped over the
batch and channel axes.  On the fast path the code uses
`height / pool_height` tiles per axis; on the fallback it uses the
`out_h, out_w` computed at construction. -/
def MaxPool.activate4 (x : Tensor4) (ph pw sd out_h out_w height width : Nat) : Tensor4 :=
  if MaxPool.usesReshape height width ph pw sd then
    x.map (fun sample => sample.map (fun slice =>
      MaxPool.activateReshape slice ph pw (height / ph) (width / pw)))
  else
    x.map (fun sample => sample.map (fun slice =>
      MaxPool.activateNaive slice ph pw sd out_h out_w))

/-- Ternary zip (for the 4-D backward wrapper). -/
def zip3With {α β γ δ : Type} (f : α → β → γ → δ) :
    List α → List β → List γ → List δ
  | a :: as2, b :: bs, c :: cs => f a b c :: zip3With f as2 bs cs
  | _, _, _ => []

/-- The full 4-D `MaxPool._derivative` (lines 533-566): the recorded
method selects the path; each `(sample, channel)` slice is independent. -/
def MaxPool.derivative4 (useReshape : Bool) (x y delta : Tensor4)
    (ph pw sd height width out_h out_w : Nat) : Tensor4 :=
  if useReshape then
    zip3With (fun sx sy sd2 => zip3With
      (fun mx my md => MaxPool.derivativeReshape height width ph pw mx my md) sx sy sd2)
      x y delta
  else
    List.zipWith (fun sx sd2 => List.zipWith
      (fun mx md => MaxPool.derivativeNaive mx md ph pw sd height width out_h out_w) sx sd2)
      x delta

/-! ## Helper lemmas -/

/-- Reading a generated grid inside its bounds gives the entry function. -/
lemma get2_mkGrid (h w : Nat) (f : Nat → Nat → ℚ) (r c : Nat) (hr : r < h) (hc : c < w) :
    get2 (mkGrid h w f) r c = f r c := by
  simp [get2, mkGrid, List.getD_eq_getElem?_getD, List.getElem?_map, List.getElem?_range, hr, hc]

lemma foldl_max_mem : ∀ (t : List ℚ) (a : ℚ), t.foldl max a ∈ a :: t := by
  intro t
  induction t with
  | nil => simp
  | cons b t ih =>
    intro a
    have h := ih (max a b)
    rcases List.mem_cons.mp h with h2 | h2
    · rw [List.foldl_cons, h2]
      rcases max_choice a b with hm | hm <;> rw [hm] <;> simp
    · rw [List.foldl_cons]
      exact List.mem_cons_of_mem a (List.mem_cons_of_mem b h2)

lemma le_foldl_max_init : ∀ (t : List ℚ) (a : ℚ), a ≤ t.foldl max a := by
  intro t
  induction t with
  | nil => simp
  | cons b t ih =>
    intro a
    exact le_trans (le_max_left a b) (ih (max a b))

lemma le_foldl_max_mem : ∀ (t : List ℚ) (a x : ℚ), x ∈ t → x ≤ t.foldl max a := by
  intro t
  induction t with
  | nil => simp
  | cons b t ih =>
    intro a x hx
    rcases List.mem_cons.mp hx with h | h
    · subst h
      exact le_trans (le_max_right a x) (le_foldl_max_init t (max a x))
    · exact ih (max a b) x h

/-- The maximum of a nonempty list is one of its elements. -/
lemma listMax_mem (l : List ℚ) (hl : l ≠ []) : listMax l ∈ l := by
  match l with
  | a :: t => exact foldl_max_mem t a

/-- Every element of a list is at most its maximum. -/
lemma le_listMax (l : List ℚ) (a : ℚ) (ha : a ∈ l) : a ≤ listMax l := by
  match l with
  | b :: t =>
    rcases List.mem_cons.mp ha with h | h
    · subst h
      exact le_foldl_max_init t a
    · exact le_foldl_max_mem t b a h

lemma mem_windowElems (x : Mat) (r0 c0 ph pw i j : Nat) (hi : i < ph) (hj : j < pw) :
    get2 x (r0 + i) (c0 + j) ∈ windowElems x r0 c0 ph pw := by
  simp only [windowElems, List.mem_flatMap, List.mem_map, List.mem_range]
  exact ⟨i, hi, j, hj, rfl⟩

lemma of_mem_windowElems (x : Mat) (r0 c0 ph pw : Nat) (a : ℚ)
    (ha : a ∈ windowElems x r0 c0 ph pw) :
    ∃ i j, i < ph ∧ j < pw ∧ a = get2 x (r0 + i) (c0 + j) := by
  simp only [windowElems, List.mem_flatMap, List.mem_map, List.mem_range] at ha
  obtain ⟨i, hi, j, hj, h⟩ := ha
  exact ⟨i, j, hi, hj, h.symm⟩

lemma windowElems_ne_nil (x : Mat) (r0 c0 ph pw : Nat) (hph : 0 < ph) (hpw : 0 < pw) :
    windowElems x r0 c0 ph pw ≠ [] :=
  List.ne_nil_of_mem (mem_windowElems x r0 c0 ph pw 0 0 hph hpw)

/-- The fast path's two nested axis maxima over a tile equal the plain
maximum over the tile's elements. -/
lemma nested_max_eq_window_max (x : Mat) (r0 c0 ph pw : Nat) (hph : 0 < ph) (hpw : 0 < pw) :
    listMax ((List.range pw).map (fun j =>
      listMax ((List.range ph).map (fun i => get2 x (r0 + i) (c0 + j)))))
      = listMax (windowElems x r0 c0 ph pw) := by
  apply le_antisymm
  · set L2 := (List.range pw).map (fun j =>
      listMax ((List.range ph).map (fun i => get2 x (r0 + i) (c0 + j)))) with hL2
    have hne : L2 ≠ [] := by
      simp [hL2, List.map_eq_nil_iff, List.range_eq_nil]
      omega
    have hmem := listMax_mem L2 hne
    rw [hL2] at hmem
    simp only [List.mem_map, List.mem_range] at hmem
    obtain ⟨j, hj, hcol⟩ := hmem
    rw [← hcol]
    have hcolne : (List.range ph).map (fun i => get2 x (r0 + i) (c0 + j)) ≠ [] := by
      simp [List.map_eq_nil_iff, List.range_eq_nil]
      omega
    have hmem2 := listMax_mem _ hcolne
    simp only [List.mem_map, List.mem_range] at hmem2
    obtain ⟨i, hi, hval⟩ := hmem2
    rw [← hval]
    exact le_listMax _ _ (mem_windowElems x r0 c0 ph pw i j hi hj)
  · have hne := windowElems_ne_nil x r0 c0 ph pw hph hpw
    have hmem := listMax_mem _ hne
    obtain ⟨i, j, hi, hj, hval⟩ := of_mem_windowElems x r0 c0 ph pw _ hmem
    rw [hval]
    refine le_trans (le_listMax ((List.range ph).map (fun i => get2 x (r0 + i) (c0 + j)))
      _ ?_) (le_listMax _ _ ?_)
    · simp only [List.mem_map, List.mem_range]
      exact ⟨i, hi, rfl⟩
    · simp only [List.mem_map, List.mem_range]
      exact ⟨j, hj, rfl⟩

/-- One window write, read inside the grid bounds. -/
lemma get2_writeWindow (x delta : Mat) (ph pw sd height width : Nat) (dx : Mat)
    (kl : Nat × Nat) (r c : Nat) (hr : r < height) (hc : c < width) :
    get2 (writeWindow x delta ph pw sd height width dx kl) r c
      = if coversB ph pw sd r c kl then windowContribution x delta ph pw sd kl r c
        else get2 dx r c := by
  rw [writeWindow, get2_mkGrid _ _ _ _ _ hr hc, windowContribution]

/-- The fallback loop is a sequence of overwrites: after running any list
of window writes, a position holds the contribution of the *last* write
covering it, or the initial value if none does. -/
lemma foldl_writeWindow_char (x delta : Mat) (ph pw sd height width r c : Nat)
    (hr : r < height) (hc : c < width) :
    ∀ (L : List (Nat × Nat)) (g : Mat),
      get2 (L.foldl (writeWindow x delta ph pw sd height width) g) r c
        = ((L.filter (coversB ph pw sd r c)).getLast?).elim (get2 g r c)
            (fun kl => windowContribution x delta ph pw sd kl r c) := by
  intro L
  induction L with
  | nil => intro g; simp
  | cons a t ih =>
    intro g
    rw [List.foldl_cons, ih, List.filter_cons]
    by_cases hpa : coversB ph pw sd r c a = true
    · rw [if_pos hpa, List.getLast?_cons]
      cases hlast : (t.filter (coversB ph pw sd r c)).getLast? with
      | none =>
        simp only [hlast, Option.elim, Option.getD]
        rw [get2_writeWindow x delta ph pw sd height width g a r c hr hc, if_pos hpa]
      | some z => simp [hlast]
    · rw [if_neg hpa]
      cases hlast : (t.filter (coversB ph pw sd r c)).getLast? with
      | none =>
        simp only [hlast, Option.elim]
        rw [get2_writeWindow x delta ph pw sd height width g a r c hr hc, if_neg hpa]
      | some z => simp [hlast]

lemma filter_range_decide_eq (n v : Nat) :
    (List.range n).filter (fun u => decide (u = v)) = if v < n then [v] else [] := by
  induction n with
  | zero => simp
  | succ m ih =>
    rw [List.range_succ, List.filter_append, ih]
    by_cases h1 : v < m
    · rw [if_pos h1, if_pos (by omega)]
      have : ¬ (m = v) := by omega
      simp [List.filter_cons, this]
    · by_cases h2 : v = m
      · subst h2
        rw [if_neg h1, if_pos (by omega)]
        simp [List.filter_cons]
      · rw [if_neg h1, if_neg (by omega)]
        simp [List.filter_cons, Ne.symm h2]

lemma flatMap_range_single {α : Type} (n k0 : Nat) (g : Nat → List α) (hk : k0 < n)
    (hg : ∀ u, u ≠ k0 → g u = []) :
    (List.range n).flatMap g = g k0 := by
  induction n with
  | zero => omega
  | succ m ih =>
    rw [List.range_succ, List.flatMap_append]
    by_cases h : k0 = m
    · subst h
      have hnil : (List.range k0).flatMap g = [] :=
        List.flatMap_eq_nil_iff.mpr (fun u hu =>
          hg u (by simp only [List.mem_range] at hu; omega))
      simp [hnil]
    · rw [ih (by omega)]
      simp [hg m (by omega)]

/-- In the tiling configuration (square `ph × ph` window, stride `ph`) a
position inside tile `(k, l)` is covered by window `(k2, l2)` exactly when
`(k2, l2) = (k, l)`. -/
lemma div_of_tile_pos (ph k i : Nat) (hi : i < ph) : (k * ph + i) / ph = k := by
  rw [Nat.mul_comm k ph, Nat.mul_add_div (by omega), Nat.div_eq_of_lt hi]
  omega

lemma coversB_tiling_iff (ph k l i j k2 l2 : Nat) (hi : i < ph) (hj : j < ph) :
    coversB ph ph ph (k * ph + i) (l * ph + j) (k2, l2) = true ↔ k2 = k ∧ l2 = l := by
  rw [coversB, decide_eq_true_iff]
  dsimp only
  constructor
  · rintro ⟨h1, h2, h3, h4⟩
    have e1 : (k * ph + i) / ph = k2 :=
      Nat.div_eq_of_lt_le h1 (by rw [Nat.succ_mul]; omega)
    have e2 : (l * ph + j) / ph = l2 :=
      Nat.div_eq_of_lt_le h3 (by rw [Nat.succ_mul]; omega)
    rw [div_of_tile_pos ph k i hi] at e1
    rw [div_of_tile_pos ph l j hj] at e2
    omega
  · rintro ⟨h1, h2⟩
    subst h1; subst h2
    omega

lemma loopPairs_filter_covers (ph out_h out_w k l i j : Nat)
    (hk : k < out_h) (hl : l < out_w) (hi : i < ph) (hj : j < ph) :
    (loopPairs out_h out_w).filter (coversB ph ph ph (k * ph + i) (l * ph + j)) = [(k, l)] := by
  rw [loopPairs, List.filter_flatMap]
  have inner : ∀ k2 : Nat,
      ((List.range out_w).map (fun l2 => (k2, l2))).filter
          (coversB ph ph ph (k * ph + i) (l * ph + j))
        = if k2 = k then [(k, l)] else [] := by
    intro k2
    by_cases hkk : k2 = k
    · rw [hkk, if_pos rfl, List.filter_map]
      have hcong : ((List.range out_w).filter
          ((coversB ph ph ph (k * ph + i) (l * ph + j)) ∘ (fun l2 => (k, l2))))
          = (List.range out_w).filter (fun l2 => decide (l2 = l)) := by
        apply List.filter_congr
        intro l2 _
        rw [Bool.eq_iff_iff, decide_eq_true_iff, Function.comp_apply,
          coversB_tiling_iff ph k l i j k l2 hi hj]
        tauto
      rw [hcong, filter_range_decide_eq, if_pos hl]
      rfl
    · rw [if_neg hkk]
      apply List.filter_eq_nil_iff.mpr
      intro a ha
      simp only [List.mem_map, List.mem_range] at ha
      obtain ⟨l2, _, rfl⟩ := ha
      intro hc
      exact hkk ((coversB_tiling_iff ph k l i j k2 l2 hi hj).mp hc).1
  calc ((List.range out_h).flatMap fun k2 =>
          ((List.range out_w).map (fun l2 => (k2, l2))).filter
            (coversB ph ph ph (k * ph + i) (l * ph + j)))
      = (List.range out_h).flatMap (fun k2 => if k2 = k then [(k, l)] else []) :=
        congrArg (List.flatMap (List.range out_h)) (funext inner)
    _ = [(k, l)] := by
        rw [flatMap_range_single out_h k _ hk (fun u hu => by simp [hu])]
        simp

/-- `lastCover` in the tiling configuration: the unique covering window. -/
lemma lastCover_tiling (ph out_h out_w k l i j : Nat)
    (hk : k < out_h) (hl : l < out_w) (hi : i < ph) (hj : j < ph) :
    lastCover ph ph ph out_h out_w (k * ph + i) (l * ph + j) = some (k, l) := by
  rw [lastCover, loopPairs_filter_covers ph out_h out_w k l i j hk hl hi hj]
  rfl

lemma mkGrid_congr (h w : Nat) (f g : Nat → Nat → ℚ)
    (hfg : ∀ r c, r < h → c < w → f r c = g r c) : mkGrid h w f = mkGrid h w g := by
  rw [mkGrid, mkGrid]
  refine List.map_congr_left (fun r hr => ?_)
  refine List.map_congr_left (fun c hc => ?_)
  exact hfg r c (List.mem_range.mp hr) (List.mem_range.mp hc)

lemma mkGrid_ext (h w : Nat) (f g : Nat → Nat → ℚ)
    (H : ∀ r c, r < h → c < w → get2 (mkGrid h w f) r c = get2 (mkGrid h w g) r c) :
    mkGrid h w f = mkGrid h w g := by
  refine mkGrid_congr h w f g (fun r c hr hc => ?_)
  have := H r c hr hc
  rwa [get2_mkGrid _ _ _ _ _ hr hc, get2_mkGrid _ _ _ _ _ hr hc] at this

lemma flatMap_congr_mem {α β : Type} (l : List α) (f g : α → List β)
    (h : ∀ a ∈ l, f a = g a) : l.flatMap f = l.flatMap g := by
  induction l with
  | nil => rfl
  | cons a t ih =>
    rw [List.flatMap_cons, List.flatMap_cons, h a (by simp),
      ih (fun b hb => h b (List.mem_cons_of_mem a hb))]

/-- A forward output cell of the fast path is the window maximum. -/
lemma activateReshape_cell (x : Mat) (ph pw out_h out_w k l : Nat)
    (hph : 0 < ph) (hpw : 0 < pw) (hk : k < out_h) (hl : l < out_w) :
    get2 (MaxPool.activateReshape x ph pw out_h out_w) k l
      = listMax (windowElems x (k * ph) (l * pw) ph pw) := by
  rw [MaxPool.activateReshape, get2_mkGrid _ _ _ _ _ hk hl,
    nested_max_eq_window_max x (k * ph) (l * pw) ph pw hph hpw]

/-- A forward output cell of the fallback path is the window maximum. -/
lemma activateNaive_cell (x : Mat) (ph pw sd out_h out_w k l : Nat)
    (hk : k < out_h) (hl : l < out_w) :
    get2 (MaxPool.activateNaive x ph pw sd out_h out_w) k l
      = listMax (windowElems x (k * sd) (l * sd) ph pw) := by
  rw [MaxPool.activateNaive, get2_mkGrid _ _ _ _ _ hk hl]

/-- A fast-backward cell, with the tile indices resolved. -/
lemma derivativeReshape_cell (height width ph pw : Nat) (x y delta : Mat)
    (k l i j : Nat) (hi : i < ph) (hj : j < pw)
    (hr : k * ph + i < height) (hc : l * pw + j < width) :
    get2 (MaxPool.derivativeReshape height width ph pw x y delta) (k * ph + i) (l * pw + j)
      = if get2 x (k * ph + i) (l * pw + j) = get2 y k l then
          get2 delta k l
            / (countEq (windowElems x (k * ph) (l * pw) ph pw) (get2 y k l) : ℚ)
        else 0 := by
  rw [MaxPool.derivativeReshape, get2_mkGrid _ _ _ _ _ hr hc]
  simp only [div_of_tile_pos ph k i hi, div_of_tile_pos pw l j hj]

/-- A fallback-backward cell in the tiling configuration: the unique
covering window's contribution. -/
lemma derivativeNaive_tiling_cell (x delta : Mat) (ph out_h out_w k l i j : Nat)
    (hk : k < out_h) (hl : l < out_w) (hi : i < ph) (hj : j < ph) :
    get2 (MaxPool.derivativeNaive x delta ph ph ph (out_h * ph) (out_w * ph) out_h out_w)
        (k * ph + i) (l * ph + j)
      = windowContribution x delta ph ph ph (k, l) (k * ph + i) (l * ph + j) := by
  have hr : k * ph + i < out_h * ph := by
    have h1 : k * ph + i < (k + 1) * ph := by rw [Nat.succ_mul]; omega
    have h2 : (k + 1) * ph ≤ out_h * ph := Nat.mul_le_mul_right ph (by omega)
    omega
  have hc : l * ph + j < out_w * ph := by
    have h1 : l * ph + j < (l + 1) * ph := by rw [Nat.succ_mul]; omega
    have h2 : (l + 1) * ph ≤ out_w * ph := Nat.mul_le_mul_right ph (by omega)
    omega
  rw [MaxPool.derivativeNaive,
    foldl_writeWindow_char x delta ph ph ph (out_h * ph) (out_w * ph)
      (k * ph + i) (l * ph + j) hr hc,
    loopPairs_filter_covers ph out_h out_w k l i j hk hl hi hj]
  rfl

/-- The fallback loop transforms one generated grid into another. -/
lemma exists_foldl_mkGrid (x delta : Mat) (ph pw sd h w : Nat) :
    ∀ (L : List (Nat × Nat)) (f0 : Nat → Nat → ℚ),
      ∃ f, L.foldl (writeWindow x delta ph pw sd h w) (mkGrid h w f0) = mkGrid h w f := by
  intro L
  induction L with
  | nil => exact fun f0 => ⟨f0, rfl⟩
  | cons a t ih =>
    intro f0
    rw [List.foldl_cons]
    have hw : writeWindow x delta ph pw sd h w (mkGrid h w f0) a
        = mkGrid h w (fun r c =>
            if coversB ph pw sd r c a then
              if get2 x r c
                  = listMax (windowElems x (a.1 * sd) (a.2 * sd) ph pw) then
                get2 delta a.1 a.2
              else 0
            else get2 (mkGrid h w f0) r c) := rfl
    rw [hw]
    exact ih _

lemma sum_map_indicator (l : List ℚ) (v d : ℚ) :
    (l.map (fun a => if a = v then d else 0)).sum = (countEq l v : ℚ) * d := by
  induction l with
  | nil => simp [countEq]
  | cons a t ih =>
    rw [List.map_cons, List.sum_cons, ih]
    by_cases h : a = v
    · rw [if_pos h]
      have hcnt : countEq (a :: t) v = countEq t v + 1 := by
        simp [countEq, List.filter_cons, h]
      rw [hcnt]
      push_cast
      ring
    · rw [if_neg h]
      have hcnt : countEq (a :: t) v = countEq t v := by
        simp [countEq, List.filter_cons, h]
      rw [hcnt]
      ring

/-! ## Claim theorems -/

/-- C1: the spec's invariant says construction fails iff
`(H + 2p − kh) mod s ≠ 0 ∨ (W + 2p − kw) mod s ≠ 0`.  The code instead
pairs the padded *width* with the kernel *height* and vice versa
(`full_height, full_width = width + 2 * self._padding, height + 2 * self._padding`,
line 180): at `H = 4, W = 5, kh = 2, kw = 3, s = 2, p = 0` the spec's two
conditions hold, yet construction fails; at `H = 4, W = 5, kh = 3, kw = 2`
the spec's height condition is violated, yet construction succeeds.  The
pooling variant (line 236) has the same swap. -/
theorem convLayer_feed_shape_swaps_height_and_width :
    ConvLayer.feed_shape 4 5 2 3 2 0 = none ∧
    (4 + 2 * 0 - 2) % 2 = (0 : ℤ) ∧ (5 + 2 * 0 - 3) % 2 = (0 : ℤ) ∧
    (ConvLayer.feed_shape 4 5 3 2 2 0).isSome = true ∧
    (4 + 2 * 0 - 3) % 2 ≠ (0 : ℤ) ∧
    ConvPoolLayer.feed_shape 4 5 2 3 2 0 = none ∧
    (ConvPoolLayer.feed_shape 4 5 3 2 2 0).isSome = true := by
  decide

/-- C2 counterexample: a sub-layer node whose child is also a sub-layer does
*not* get the chain-rule form.  With a Dropout-style derivative
(`2 * delta`), a Sigmoid root, `y = [[1/2]]`, `w = [[2]]`,
`prev_delta = [[1]]`, the code returns
`self._derivative(y, prev_delta) = [[2]]`, while the claimed
`derivative(y, prev_delta · wᵀ · root.derivative(y))` equals `[[1]]`. -/
theorem layer_bp_sub_child_skips_chain_rule :
    Layer.bp true true (fun _y d => Dropout.derivativeM 2 d) Sigmoid.derivativeM
        Sigmoid.derivativeM [[1/2]] [[2]] [[1]] = [[2]] ∧
    Dropout.derivativeM 2
        (hadamard (matMul [[1]] (transposeM [[2]]))
          (Sigmoid.derivativeM [[1/2]])) = [[1]] ∧
    ¬ ([[2]] = ([[1]] : Mat)) := by
  refine ⟨?_, ?_, by decide⟩
  · simp [Layer.bp, Dropout.derivativeM, scalarM]
  · simp [Dropout.derivativeM, Sigmoid.derivativeM, hadamard, matMul, transposeM, mapM2,
      scalarM, List.range_succ]
    norm_num

/-- C2 (amended): a sub-layer node whose child is *not* a sub-layer (or has
no child) backpropagates
`derivative(y, prev_delta · wᵀ · root.derivative(y))`; but a sub-layer node
whose child *is* a sub-layer returns `derivative(y, prev_delta)` directly —
the weight transpose and root-activation factor are skipped (the sub-layer
ahead already absorbed them). -/
theorem layer_bp_sub_layer_dispatch
    (derivSub : Mat → Mat → Mat) (derivSelf rootDeriv : Mat → Mat) (y w prev_delta : Mat) :
    Layer.bp true false derivSub derivSelf rootDeriv y w prev_delta
        = derivSub y (hadamard (matMul prev_delta (transposeM w)) (rootDeriv y)) ∧
    Layer.bp true true derivSub derivSelf rootDeriv y w prev_delta
        = derivSub y prev_delta := by
  constructor <;> simp [Layer.bp]

/-- C8 counterexample: a construction that passes the (swapped) build check
but whose computed output height is *not* `⌊(H + 2p − kh)/s⌋ + 1`: with
`H = 1, W = 2, kh = 2, kw = 1, s = 2, p = 0` the code returns
`out_h = int((1 − 2)/2) + 1 = 1` (truncation toward zero), while the floor
form gives `⌊−1/2⌋ + 1 = 0`.  The pooling size formula truncates the same
way. -/
theorem conv_output_size_is_not_floor :
    ConvLayer.feed_shape 1 2 2 1 2 0 = some (1, 1) ∧
    Int.fdiv (1 + 2 * 0 - 2) 2 + 1 = (0 : ℤ) ∧
    ConvPoolLayer.feed_shape 1 2 2 1 2 0 = some (1, 1) ∧
    Int.fdiv (1 - 2) 2 + 1 = (0 : ℤ) := by
  decide

/-- C8 (amended): for every convolutional layer that constructs successfully
and whose kernel does not exceed the padded input in either dimension, the
computed output size is `⌊(H + 2p − kh)/s⌋ + 1` by `⌊(W + 2p − kw)/s⌋ + 1`;
for every pooling layer that constructs successfully and whose window does
not exceed the input, the padding term is omitted, giving
`⌊(H − ph)/s⌋ + 1` by `⌊(W − pw)/s⌋ + 1`.  (Without the kernel-size bound
the code's truncation toward zero can exceed the floor form, see
`conv_output_size_is_not_floor`.) -/
theorem feed_shape_output_size_floor
    (h w kh kw ph pw s p oh ow oh2 ow2 : ℤ) (hs : 0 < s)
    (hkh : kh ≤ h + 2 * p) (hkw : kw ≤ w + 2 * p)
    (hph : ph ≤ h) (hpw : pw ≤ w)
    (hc : ConvLayer.feed_shape h w kh kw s p = some (oh, ow))
    (hq : ConvPoolLayer.feed_shape h w ph pw s p = some (oh2, ow2)) :
    oh = Int.fdiv (h + 2 * p - kh) s + 1 ∧ ow = Int.fdiv (w + 2 * p - kw) s + 1 ∧
    oh2 = Int.fdiv (h - ph) s + 1 ∧ ow2 = Int.fdiv (w - pw) s + 1 := by
  have tf : ∀ a : ℤ, 0 ≤ a → Int.tdiv a s = Int.fdiv a s := by
    intro a ha
    rw [Int.tdiv_eq_ediv ha hs.le, Int.fdiv_eq_ediv _ hs.le]
  simp only [ConvLayer.feed_shape] at hc
  simp only [ConvPoolLayer.feed_shape] at hq
  split at hc
  · exact absurd hc (by simp)
  · split at hq
    · exact absurd hq (by simp)
    · obtain ⟨h1, h2⟩ := Prod.mk.injEq .. ▸ Option.some.injEq .. ▸ hc
      obtain ⟨h3, h4⟩ := Prod.mk.injEq .. ▸ Option.some.injEq .. ▸ hq
      refine ⟨?_, ?_, ?_, ?_⟩
      · rw [← h1, tf _ (by linarith)]
      · rw [← h2, tf _ (by linarith)]
      · rw [← h3, tf _ (by linarith)]
      · rw [← h4, tf _ (by linarith)]

/-- Witness for `feed_shape_output_size_floor` at the spec's own example
shape: 4×4 input, 2×2 kernel/window, stride 2, no padding. -/
theorem feed_shape_output_size_floor_witness :
    ((0 : ℤ) < 2 ∧ (2 : ℤ) ≤ 4 + 2 * 0 ∧ (2 : ℤ) ≤ 4 ∧
      ConvLayer.feed_shape 4 4 2 2 2 0 = some (2, 2) ∧
      ConvPoolLayer.feed_shape 4 4 2 2 2 0 = some (2, 2)) ∧
    ((2 : ℤ) = Int.fdiv (4 + 2 * 0 - 2) 2 + 1 ∧ (2 : ℤ) = Int.fdiv (4 + 2 * 0 - 2) 2 + 1 ∧
      (2 : ℤ) = Int.fdiv (4 - 2) 2 + 1 ∧ (2 : ℤ) = Int.fdiv (4 - 2) 2 + 1) :=
  ⟨by decide,
   feed_shape_output_size_floor 4 4 2 2 2 2 2 0 2 2 2 2 (by decide) (by decide) (by decide)
     (by decide) (by decide) (by decide) (by decide)⟩

/-- C5 counterexample: for the negative log-likelihood loss, `bp_first`
returns the *negated* raw loss gradient divided by 4
(`-self._cost_function(y, y_pred) / 4`, line 711), not the raw loss
gradient divided by 4: at `y = [[1,0]]`, `ŷ = [[3/5,2/5]]` the raw gradient
is `[[-2/5, 2/5]]`, the code returns `[[1/10, -1/10]]`, and the claimed
value is `[[-1/10, 1/10]]`. -/
theorem bp_first_log_likelihood_sign :
    CostLayer.bp_first "Softmax" Sigmoid.derivativeM CostFunc.LogLikelihood
        [[1, 0]] [[3/5, 2/5]] = [[1/10, -(1/10)]] ∧
    scalarM (1/4) (CostLayer.cost_gradient CostFunc.LogLikelihood [[1, 0]] [[3/5, 2/5]])
        = [[-(1/10), 1/10]] ∧
    ¬ ([[1/10, -(1/10)]] = ([[-(1/10), 1/10]] : Mat)) := by
  refine ⟨?_, ?_, ?_⟩
  · simp [CostLayer.bp_first, CostLayer.cost_gradient, CostLayer.log_likelihood_diff,
      rowArgmax, listMax, scalarM, List.range_succ, List.findIdx_cons]
    norm_num
  · simp [CostLayer.cost_gradient, CostLayer.log_likelihood_diff,
      rowArgmax, listMax, scalarM, List.range_succ, List.findIdx_cons]
    norm_num
  · norm_num

/-- C5 (amended): `bp_first(y, ŷ)` returns `y(1−ŷ) − (1−y)ŷ` when the root
activation is the sigmoid and the loss is cross-entropy; returns the
*negated* raw loss gradient divided by 4 when the loss is negative
log-likelihood; and otherwise returns `−loss_gradient(y, ŷ) ·
root.derivative(ŷ)`. -/
theorem bp_first_cases (rootName : String) (rootDeriv : Mat → Mat)
    (cost : CostFunc) (y y_pred : Mat) :
    (rootName = "Sigmoid" → cost = CostFunc.CrossEntropy →
      CostLayer.bp_first rootName rootDeriv cost y y_pred
        = zipWith2D (fun a b => a * (1 - b) - (1 - a) * b) y y_pred) ∧
    (cost = CostFunc.LogLikelihood →
      CostLayer.bp_first rootName rootDeriv cost y y_pred
        = scalarM (-(1/4)) (CostLayer.log_likelihood_diff y y_pred)) ∧
    (¬ (rootName = "Sigmoid" ∧ cost = CostFunc.CrossEntropy) →
      cost ≠ CostFunc.LogLikelihood →
      CostLayer.bp_first rootName rootDeriv cost y y_pred
        = hadamard (scalarM (-1) (CostLayer.cost_gradient cost y y_pred)) (rootDeriv y_pred)) := by
  refine ⟨fun h1 h2 => ?_, fun h => ?_, fun h1 h2 => ?_⟩
  · simp [CostLayer.bp_first, h1, h2]
  · subst h
    simp [CostLayer.bp_first, CostLayer.cost_gradient]
  · simp [CostLayer.bp_first, h1, h2]

/-- Witness for `bp_first_cases`: the three hypotheses discharged at
concrete inputs (sigmoid/cross-entropy, log-likelihood, and tanh/MSE). -/
theorem bp_first_cases_witness :
    (CostLayer.bp_first "Sigmoid" Sigmoid.derivativeM CostFunc.CrossEntropy [[1]] [[1/2]]
        = zipWith2D (fun a b => a * (1 - b) - (1 - a) * b) [[1]] [[1/2]]) ∧
    (CostLayer.bp_first "Tanh" Tanh.derivativeM CostFunc.LogLikelihood [[1, 0]] [[3/5, 2/5]]
        = scalarM (-(1/4)) (CostLayer.log_likelihood_diff [[1, 0]] [[3/5, 2/5]])) ∧
    (CostLayer.bp_first "Tanh" Tanh.derivativeM CostFunc.MSE [[1]] [[1/2]]
        = hadamard (scalarM (-1) (CostLayer.cost_gradient CostFunc.MSE [[1]] [[1/2]]))
            (Tanh.derivativeM [[1/2]])) :=
  ⟨(bp_first_cases "Sigmoid" Sigmoid.derivativeM CostFunc.CrossEntropy [[1]] [[1/2]]).1
      rfl rfl,
   (bp_first_cases "Tanh" Tanh.derivativeM CostFunc.LogLikelihood [[1, 0]] [[3/5, 2/5]]).2.1
      rfl,
   (bp_first_cases "Tanh" Tanh.derivativeM CostFunc.MSE [[1]] [[1/2]]).2.2
      (by simp) (by simp)⟩

/-- C9: the `_batch_range` cache of `_log_likelihood` is sized by the first
call and never invalidated.  A first call with a 1-row batch is correct and
caches length 1; a subsequent call with a 2-row batch then broadcasts the
stale row index `0` against both true-class columns, decrementing row 0
twice and leaving row 1 untouched — not the claimed per-row subtraction
(shown third); a stale cache of length 2 against a 1-row batch raises. -/
theorem log_likelihood_stale_batch_range :
    CostLayer.log_likelihood_diff_cached none [[1, 0]] [[3/5, 2/5]]
        = (some [[-(2/5), 2/5]], some 1) ∧
    CostLayer.log_likelihood_diff_cached (some 1) [[1, 0], [0, 1]]
        [[3/5, 2/5], [3/10, 7/10]]
        = (some [[-(2/5), -(3/5)], [3/10, 7/10]], some 1) ∧
    CostLayer.log_likelihood_diff [[1, 0], [0, 1]] [[3/5, 2/5], [3/10, 7/10]]
        = [[-(2/5), 2/5], [3/10, -(3/10)]] ∧
    CostLayer.log_likelihood_diff_cached (some 2) [[1, 0]] [[3/5, 2/5]]
        = (none, some 2) := by
  refine ⟨?_, ?_, ?_, ?_⟩ <;>
    · first
      | (simp [CostLayer.log_likelihood_diff_cached, CostLayer.log_likelihood_diff,
          rowArgmax, listMax, List.range_succ, List.findIdx_cons]
         norm_num)
      | simp [CostLayer.log_likelihood_diff_cached, CostLayer.log_likelihood_diff,
          rowArgmax, listMax, List.range_succ, List.findIdx_cons]

lemma tile_pos_lt (ph out_h k i : Nat) (hk : k < out_h) (hi : i < ph) :
    k * ph + i < out_h * ph := by
  have h1 : k * ph + i < (k + 1) * ph := by rw [Nat.succ_mul]; omega
  have h2 : (k + 1) * ph ≤ out_h * ph := Nat.mul_le_mul_right ph (by omega)
  omega

/-- C10: in the fallback backward path each window's routed gradient is
written by *assignment*, not accumulation (lines 561-563), so every input
position ends up holding exactly the contribution of the last window, in
loop order, that covers it — not the sum of all covering windows'
contributions — and `0` if no window covers it. -/
theorem maxpool_naive_backward_is_last_write (x delta : Mat)
    (ph pw sd height width out_h out_w r c : Nat)
    (hr : r < height) (hc : c < width) :
    get2 (MaxPool.derivativeNaive x delta ph pw sd height width out_h out_w) r c
      = (lastCover ph pw sd out_h out_w r c).elim 0
          (fun kl => windowContribution x delta ph pw sd kl r c) := by
  rw [MaxPool.derivativeNaive,
    foldl_writeWindow_char x delta ph pw sd height width r c hr hc, lastCover]
  cases hl : ((loopPairs out_h out_w).filter (coversB ph pw sd r c)).getLast? with
  | none =>
    simp only [Option.elim]
    rw [get2_mkGrid _ _ _ _ _ hr hc]
  | some kl => simp

/-- Witness for `maxpool_naive_backward_is_last_write` on a 3×3 input with
2×2 windows at stride 1 (overlapping): position `(1,1)` is covered by all
four windows; the final gradient there is the last window's contribution
(`0`, since `x[1][1] = 5` is not that window's maximum), even though the
first window routed its upstream value `1` there. -/
theorem maxpool_naive_backward_is_last_write_witness :
    ((1 < 3 ∧ 1 < 3) ∧
      get2 (MaxPool.derivativeNaive [[1,2,3],[4,5,6],[7,8,9]] [[1,10],[100,1000]]
          2 2 1 3 3 2 2) 1 1
        = (lastCover 2 2 1 2 2 1 1).elim 0
            (fun kl => windowContribution [[1,2,3],[4,5,6],[7,8,9]] [[1,10],[100,1000]]
              2 2 1 kl 1 1)) ∧
    lastCover 2 2 1 2 2 1 1 = some (1, 1) ∧
    windowContribution [[1,2,3],[4,5,6],[7,8,9]] [[1,10],[100,1000]] 2 2 1 (1, 1) 1 1 = 0 ∧
    windowContribution [[1,2,3],[4,5,6],[7,8,9]] [[1,10],[100,1000]] 2 2 1 (0, 0) 1 1 = 1 :=
  ⟨⟨⟨by norm_num, by norm_num⟩,
    maxpool_naive_backward_is_last_write [[1,2,3],[4,5,6],[7,8,9]] [[1,10],[100,1000]]
      2 2 1 3 3 2 2 1 1 (by norm_num) (by norm_num)⟩,
   by simp [lastCover, loopPairs, coversB, List.range_succ],
   by
     simp [windowContribution, windowElems, listMax, get2, List.range_succ]
     norm_num,
   by
     simp [windowContribution, windowElems, listMax, get2, List.range_succ]
     norm_num⟩

/-- C3: per-window tie handling.  Fix a window `(k, l)` (square `ph × ph`
windows tiling the input, as in the fast path's applicability condition)
whose forward output `y[k][l]` equals the window maximum `M`.  At every
position of the window: the fast (reshape) backward path writes
`delta / cnt`, splitting the routed gradient equally among the `cnt`
positions tied at `M` (and `0` off the tied positions); the fallback
backward path writes the full upstream `delta` at every tied position
without dividing; and when the maximum is unique (`cnt = 1`) both paths
agree, routing the full upstream delta to that single position. -/
theorem maxpool_tie_handling (x y delta : Mat) (ph out_h out_w k l i j : Nat)
    (hk : k < out_h) (hl : l < out_w) (hi : i < ph) (hj : j < ph)
    (hy : get2 y k l = listMax (windowElems x (k * ph) (l * ph) ph ph)) :
    (get2 (MaxPool.derivativeReshape (out_h * ph) (out_w * ph) ph ph x y delta)
        (k * ph + i) (l * ph + j)
      = if get2 x (k * ph + i) (l * ph + j)
            = listMax (windowElems x (k * ph) (l * ph) ph ph) then
          get2 delta k l
            / (countEq (windowElems x (k * ph) (l * ph) ph ph)
                (listMax (windowElems x (k * ph) (l * ph) ph ph)) : ℚ)
        else 0) ∧
    (get2 (MaxPool.derivativeNaive x delta ph ph ph (out_h * ph) (out_w * ph) out_h out_w)
        (k * ph + i) (l * ph + j)
      = if get2 x (k * ph + i) (l * ph + j)
            = listMax (windowElems x (k * ph) (l * ph) ph ph) then
          get2 delta k l
        else 0) ∧
    (countEq (windowElems x (k * ph) (l * ph) ph ph)
        (listMax (windowElems x (k * ph) (l * ph) ph ph)) = 1 →
      get2 (MaxPool.derivativeReshape (out_h * ph) (out_w * ph) ph ph x y delta)
          (k * ph + i) (l * ph + j)
        = get2 (MaxPool.derivativeNaive x delta ph ph ph (out_h * ph) (out_w * ph)
            out_h out_w) (k * ph + i) (l * ph + j)) := by
  have hr : k * ph + i < out_h * ph := tile_pos_lt ph out_h k i hk hi
  have hc : l * ph + j < out_w * ph := tile_pos_lt ph out_w l j hl hj
  have p1 : get2 (MaxPool.derivativeReshape (out_h * ph) (out_w * ph) ph ph x y delta)
      (k * ph + i) (l * ph + j)
      = if get2 x (k * ph + i) (l * ph + j)
            = listMax (windowElems x (k * ph) (l * ph) ph ph) then
          get2 delta k l
            / (countEq (windowElems x (k * ph) (l * ph) ph ph)
                (listMax (windowElems x (k * ph) (l * ph) ph ph)) : ℚ)
        else 0 := by
    rw [derivativeReshape_cell (out_h * ph) (out_w * ph) ph ph x y delta k l i j hi hj hr hc,
      hy]
  have p2 : get2 (MaxPool.derivativeNaive x delta ph ph ph (out_h * ph) (out_w * ph)
      out_h out_w) (k * ph + i) (l * ph + j)
      = if get2 x (k * ph + i) (l * ph + j)
            = listMax (windowElems x (k * ph) (l * ph) ph ph) then
          get2 delta k l
        else 0 := by
    rw [derivativeNaive_tiling_cell x delta ph out_h out_w k l i j hk hl hi hj,
      windowContribution]
  refine ⟨p1, p2, fun hcnt => ?_⟩
  rw [p1, p2, hcnt]
  norm_num

/-- Witness for `maxpool_tie_handling` at a fully tied 2×2 window of
constant value 1, upstream delta 4: the fast path writes `4/4 = 1`
everywhere, the fallback writes `4`. -/
theorem maxpool_tie_handling_witness :
    ((0 : Nat) < 1 ∧ (0 : Nat) < 2 ∧
      get2 [[1]] 0 0 = listMax (windowElems [[1,1],[1,1]] (0 * 2) (0 * 2) 2 2)) ∧
    ((get2 (MaxPool.derivativeReshape (1 * 2) (1 * 2) 2 2 [[1,1],[1,1]] [[1]] [[4]])
        (0 * 2 + 0) (0 * 2 + 0)
      = if get2 [[1,1],[1,1]] (0 * 2 + 0) (0 * 2 + 0)
            = listMax (windowElems [[1,1],[1,1]] (0 * 2) (0 * 2) 2 2) then
          get2 [[4]] 0 0
            / (countEq (windowElems [[1,1],[1,1]] (0 * 2) (0 * 2) 2 2)
                (listMax (windowElems [[1,1],[1,1]] (0 * 2) (0 * 2) 2 2)) : ℚ)
        else 0) ∧
    (get2 (MaxPool.derivativeNaive [[1,1],[1,1]] [[4]] 2 2 2 (1 * 2) (1 * 2) 1 1)
        (0 * 2 + 0) (0 * 2 + 0)
      = if get2 [[1,1],[1,1]] (0 * 2 + 0) (0 * 2 + 0)
            = listMax (windowElems [[1,1],[1,1]] (0 * 2) (0 * 2) 2 2) then
          get2 [[4]] 0 0
        else 0) ∧
    (countEq (windowElems [[1,1],[1,1]] (0 * 2) (0 * 2) 2 2)
        (listMax (windowElems [[1,1],[1,1]] (0 * 2) (0 * 2) 2 2)) = 1 →
      get2 (MaxPool.derivativeReshape (1 * 2) (1 * 2) 2 2 [[1,1],[1,1]] [[1]] [[4]])
          (0 * 2 + 0) (0 * 2 + 0)
        = get2 (MaxPool.derivativeNaive [[1,1],[1,1]] [[4]] 2 2 2 (1 * 2) (1 * 2) 1 1)
            (0 * 2 + 0) (0 * 2 + 0))) :=
  ⟨⟨by norm_num, by norm_num,
    by simp [get2, windowElems, listMax, List.range_succ]⟩,
   maxpool_tie_handling [[1,1],[1,1]] [[1]] [[4]] 2 1 1 0 0 0 0
     (by norm_num) (by norm_num) (by norm_num) (by norm_num)
     (by simp [get2, windowElems, listMax, List.range_succ])⟩

/-- C4 (amended): on inputs where both paths are applicable (square window
whose side equals the stride, tiling the input exactly), the two forward
paths produce identical outputs; the two backward paths produce identical
gradients whenever no window has tied maxima; and the gradient summed over
a window equals that window's upstream delta when the window has no tied
maxima.  (With ties the backward paths differ, see
`maxpool_backward_paths_disagree_on_ties`.) -/
theorem maxpool_fast_and_naive_paths_agree (x delta : Mat) (ph out_h out_w : Nat)
    (hph : 0 < ph) :
    MaxPool.usesReshape (out_h * ph) (out_w * ph) ph ph ph = true ∧
    MaxPool.activateReshape x ph ph out_h out_w
      = MaxPool.activateNaive x ph ph ph out_h out_w ∧
    (MaxPool.noTies x ph ph ph out_h out_w →
      MaxPool.derivativeReshape (out_h * ph) (out_w * ph) ph ph x
          (MaxPool.activateReshape x ph ph out_h out_w) delta
        = MaxPool.derivativeNaive x delta ph ph ph (out_h * ph) (out_w * ph) out_h out_w) ∧
    (∀ k l, k < out_h → l < out_w →
      countEq (windowElems x (k * ph) (l * ph) ph ph)
          (listMax (windowElems x (k * ph) (l * ph) ph ph)) = 1 →
      (windowElems (MaxPool.derivativeReshape (out_h * ph) (out_w * ph) ph ph x
          (MaxPool.activateReshape x ph ph out_h out_w) delta)
          (k * ph) (l * ph) ph ph).sum
        = get2 delta k l) := by
  refine ⟨?_, ?_, ?_, ?_⟩
  · simp [MaxPool.usesReshape, Nat.mul_mod_left]
  · rw [MaxPool.activateReshape, MaxPool.activateNaive]
    apply mkGrid_congr
    intro k l hk hl
    exact nested_max_eq_window_max x (k * ph) (l * ph) ph ph hph hph
  · intro hnt
    obtain ⟨f, hf⟩ := exists_foldl_mkGrid x delta ph ph ph (out_h * ph) (out_w * ph)
      (loopPairs out_h out_w) (fun _ _ => 0)
    have hnaive : MaxPool.derivativeNaive x delta ph ph ph (out_h * ph) (out_w * ph)
        out_h out_w = mkGrid (out_h * ph) (out_w * ph) f := hf
    have key : ∀ r c, r < out_h * ph → c < out_w * ph →
        get2 (MaxPool.derivativeReshape (out_h * ph) (out_w * ph) ph ph x
          (MaxPool.activateReshape x ph ph out_h out_w) delta) r c
        = get2 (MaxPool.derivativeNaive x delta ph ph ph (out_h * ph) (out_w * ph)
            out_h out_w) r c := by
      intro r c hr hc
      obtain ⟨k, i, hk, hi, rfl⟩ : ∃ k i, k < out_h ∧ i < ph ∧ r = k * ph + i := by
        refine ⟨r / ph, r % ph, (Nat.div_lt_iff_lt_mul hph).mpr hr, Nat.mod_lt r hph, ?_⟩
        rw [Nat.mul_comm]
        exact (Nat.div_add_mod r ph).symm
      obtain ⟨l, j, hl, hj, rfl⟩ : ∃ l j, l < out_w ∧ j < ph ∧ c = l * ph + j := by
        refine ⟨c / ph, c % ph, (Nat.div_lt_iff_lt_mul hph).mpr hc, Nat.mod_lt c hph, ?_⟩
        rw [Nat.mul_comm]
        exact (Nat.div_add_mod c ph).symm
      rw [derivativeReshape_cell (out_h * ph) (out_w * ph) ph ph x _ delta k l i j hi hj hr hc,
        derivativeNaive_tiling_cell x delta ph out_h out_w k l i j hk hl hi hj,
        activateReshape_cell x ph ph out_h out_w k l hph hph hk hl,
        windowContribution, hnt k l hk hl]
      norm_num
    rw [hnaive]
    apply mkGrid_ext
    intro r c hr hc
    have h2 := key r c hr hc
    rw [hnaive] at h2
    exact h2
  · intro k l hk hl hcnt
    have hy := activateReshape_cell x ph ph out_h out_w k l hph hph hk hl
    have hmap : windowElems (MaxPool.derivativeReshape (out_h * ph) (out_w * ph) ph ph x
        (MaxPool.activateReshape x ph ph out_h out_w) delta) (k * ph) (l * ph) ph ph
        = (windowElems x (k * ph) (l * ph) ph ph).map
            (fun a => if a = listMax (windowElems x (k * ph) (l * ph) ph ph) then
              get2 delta k l else 0) := by
      rw [windowElems, windowElems, List.map_flatMap]
      apply flatMap_congr_mem
      intro i hi
      rw [List.map_map]
      apply List.map_congr_left
      intro j hj
      simp only [List.mem_range] at hi hj
      simp only [Function.comp_apply]
      rw [derivativeReshape_cell (out_h * ph) (out_w * ph) ph ph x _ delta k l i j hi hj
          (tile_pos_lt ph out_h k i hk hi) (tile_pos_lt ph out_w l j hl hj),
        hy, hcnt]
      simp [windowElems]
    rw [hmap, sum_map_indicator, hcnt]
    norm_num

/-- C4 counterexample: the two paths are *not* bit-for-bit identical as a
whole on every applicable input.  On the all-ones 2×2 input with 2×2
window and stride 2 (both paths applicable, forward outputs agree), the
backward fast path distributes the upstream `4` as `1` per tied position
while the fallback writes the full `4` at every position. -/
theorem maxpool_backward_paths_disagree_on_ties :
    MaxPool.usesReshape 2 2 2 2 2 = true ∧
    MaxPool.activateReshape [[1,1],[1,1]] 2 2 1 1
      = MaxPool.activateNaive [[1,1],[1,1]] 2 2 2 1 1 ∧
    MaxPool.activateReshape [[1,1],[1,1]] 2 2 1 1 = [[1]] ∧
    MaxPool.derivativeReshape 2 2 2 2 [[1,1],[1,1]] [[1]] [[4]] = [[1,1],[1,1]] ∧
    MaxPool.derivativeNaive [[1,1],[1,1]] [[4]] 2 2 2 2 2 1 1 = [[4,4],[4,4]] ∧
    ¬ ([[1,1],[1,1]] = ([[4,4],[4,4]] : Mat)) := by
  refine ⟨by decide, ?_, ?_, ?_, ?_, by norm_num⟩
  · simp [MaxPool.activateReshape, MaxPool.activateNaive, mkGrid, windowElems, listMax,
      get2, List.range_succ]
  · simp [MaxPool.activateReshape, mkGrid, listMax, get2, List.range_succ]
  · simp [MaxPool.derivativeReshape, mkGrid, windowElems, listMax, countEq, get2,
      List.range_succ]
  · simp [MaxPool.derivativeNaive, loopPairs, writeWindow, mkGrid, windowElems, listMax,
      coversB, get2, List.range_succ]

/-- Witness for `maxpool_fast_and_naive_paths_agree` on the tie-free input
`[[1,2],[3,4]]` with a 2×2 window: a single window with unique maximum 4;
the no-ties hypothesis of the backward clause and the unique-maximum
hypothesis of the window-sum clause are discharged concretely. -/
theorem maxpool_fast_and_naive_paths_agree_witness :
    ((0 : Nat) < 2 ∧ MaxPool.noTies [[1,2],[3,4]] 2 2 2 1 1 ∧
      countEq (windowElems [[1,2],[3,4]] (0 * 2) (0 * 2) 2 2)
        (listMax (windowElems [[1,2],[3,4]] (0 * 2) (0 * 2) 2 2)) = 1) ∧
    (MaxPool.derivativeReshape (1 * 2) (1 * 2) 2 2 [[1,2],[3,4]]
        (MaxPool.activateReshape [[1,2],[3,4]] 2 2 1 1) [[5]]
      = MaxPool.derivativeNaive [[1,2],[3,4]] [[5]] 2 2 2 (1 * 2) (1 * 2) 1 1) ∧
    ((windowElems (MaxPool.derivativeReshape (1 * 2) (1 * 2) 2 2 [[1,2],[3,4]]
        (MaxPool.activateReshape [[1,2],[3,4]] 2 2 1 1) [[5]])
        (0 * 2) (0 * 2) 2 2).sum
      = get2 [[5]] 0 0) := by
  have hnt : MaxPool.noTies [[1,2],[3,4]] 2 2 2 1 1 := by
    intro k l hk hl
    interval_cases k
    interval_cases l
    simp [countEq, windowElems, listMax, get2, List.range_succ]
    norm_num
  have hcnt : countEq (windowElems [[1,2],[3,4]] (0 * 2) (0 * 2) 2 2)
      (listMax (windowElems [[1,2],[3,4]] (0 * 2) (0 * 2) 2 2)) = 1 := by
    simp [countEq, windowElems, listMax, get2, List.range_succ]
    norm_num
  exact ⟨⟨by norm_num, hnt, hcnt⟩,
    (maxpool_fast_and_naive_paths_agree [[1,2],[3,4]] [[5]] 2 1 1 (by norm_num)).2.2.1 hnt,
    (maxpool_fast_and_naive_paths_agree [[1,2],[3,4]] [[5]] 2 1 1 (by norm_num)).2.2.2
      0 0 (by norm_num) (by norm_num) hcnt⟩

/-- C6 counterexample: on the very first forward call a node receives —
here in inference mode (`predict = True`) — lines 637-638 *do* mutate the
running mean/variance fields, replacing `None` by zero vectors. -/
theorem normalize_predict_first_call_mutates_running_state :
    (Normalize.activate id
        ⟨none, none, none, none, none, none, [1], [0], 9/10, 0⟩ [[1], [3]] true).2.running_mean
      = some [0] ∧
    (Normalize.activate id
        ⟨none, none, none, none, none, none, [1], [0], 9/10, 0⟩ [[1], [3]] true).2.running_var
      = some [0] ∧
    (⟨none, none, none, none, none, none, [1], [0], 9/10, 0⟩ : NormalizeState).running_mean
      = none ∧
    ¬ (some [(0 : ℚ)] = (none : Option (List ℚ))) := by
  refine ⟨?_, ?_, rfl, by simp⟩ <;> simp [Normalize.activate, widthOf]

/-- C6 (amended): in inference mode the output is computed from the running
estimates (not batch statistics) and the state is unchanged — except on the
very first forward call, where the still-unset running mean/variance are
lazily initialized to zero vectors (and the output is computed from those
zeros); nothing else in the state is touched in this mode. -/
theorem normalize_inference_uses_running_stats (sqrtQ : ℚ → ℚ) (st : NormalizeState)
    (x : Mat) :
    (∀ rm rv, st.running_mean = some rm → st.running_var = some rv →
      (Normalize.activate sqrtQ st x true).1
          = scaleShiftRows (normalizeRows sqrtQ x rm rv st.eps) st.gamma st.beta ∧
      (Normalize.activate sqrtQ st x true).2 = st) ∧
    (st.running_mean = none → st.running_var = none →
      (Normalize.activate sqrtQ st x true).1
          = scaleShiftRows (normalizeRows sqrtQ x (List.replicate (widthOf x) 0)
              (List.replicate (widthOf x) 0) st.eps) st.gamma st.beta ∧
      (Normalize.activate sqrtQ st x true).2
          = { st with running_mean := some (List.replicate (widthOf x) 0),
                      running_var := some (List.replicate (widthOf x) 0) }) := by
  constructor
  · intro rm rv hm hv
    refine ⟨by simp [Normalize.activate, hm, hv], ?_⟩
    cases st with
    | mk sm sv rm2 rv2 xc xnc g b m e =>
      simp only at hm hv
      subst hm; subst hv
      simp [Normalize.activate]
  · intro hm hv
    constructor <;> simp [Normalize.activate, hm, hv]

/-- Witness for `normalize_inference_uses_running_stats`: one node whose
running statistics are already set (they are used and unchanged), and one
fresh node (zero-initialization observed). -/
theorem normalize_inference_uses_running_stats_witness :
    ((⟨none, none, some [2], some [4], none, none, [1], [0], 9/10, 0⟩ :
        NormalizeState).running_mean = some [2] ∧
      (Normalize.activate id
          ⟨none, none, some [2], some [4], none, none, [1], [0], 9/10, 0⟩ [[1]] true).1
        = scaleShiftRows (normalizeRows id [[1]] [2] [4] 0) [1] [0] ∧
      (Normalize.activate id
          ⟨none, none, some [2], some [4], none, none, [1], [0], 9/10, 0⟩ [[1]] true).2
        = ⟨none, none, some [2], some [4], none, none, [1], [0], 9/10, 0⟩) ∧
    ((Normalize.activate id
          ⟨none, none, none, none, none, none, [1], [0], 9/10, 0⟩ [[1]] true).2
        = ⟨none, none, some (List.replicate (widthOf [[1]]) 0),
            some (List.replicate (widthOf [[1]]) 0), none, none, [1], [0], 9/10, 0⟩) :=
  ⟨⟨rfl,
    ((normalize_inference_uses_running_stats id
        ⟨none, none, some [2], some [4], none, none, [1], [0], 9/10, 0⟩ [[1]]).1
      [2] [4] rfl rfl).1,
    ((normalize_inference_uses_running_stats id
        ⟨none, none, some [2], some [4], none, none, [1], [0], 9/10, 0⟩ [[1]]).1
      [2] [4] rfl rfl).2⟩,
   ((normalize_inference_uses_running_stats id
        ⟨none, none, none, none, none, none, [1], [0], 9/10, 0⟩ [[1]]).2
      rfl rfl).2⟩

/-- C7 counterexample: node 1's derived root (walking `parent` links) is
the Sigmoid at index 0, but its stored `_root` was set to the Tanh at
index 2 — and both `Layer.bp` and `CostLayer.bp_first` use the *stored*
reference: `bp` multiplies by Tanh's derivative `3/4` at `y = 1/2`
(giving `[[3/4]]`) instead of Sigmoid's `1/4`, and `bp_first` misses the
sigmoid/cross-entropy shortcut (returning the general form `[[3/2]]`, not
the shortcut value `[[1/2]]`). -/
theorem bp_reads_stored_root_not_derived :
    SubLayer.rootIdx exampleChain 3 1 = some 0 ∧
    (exampleChain.get? 0).map ChainNode.name = some "Sigmoid" ∧
    (exampleChain.get? 1).map ChainNode.root_stored = some (some 2) ∧
    (exampleChain.get? 2).map ChainNode.name = some "Tanh" ∧
    Layer.bpAt exampleChain 1 [[1/2]] [[1]] [[1]] = [[3/4]] ∧
    hadamard (matMul [[1]] (transposeM [[1]])) (Sigmoid.derivativeM [[1/2]]) = [[1/4]] ∧
    ¬ ([[3/4]] = ([[1/4]] : Mat)) ∧
    CostLayer.bp_firstAt exampleChain 1 CostFunc.CrossEntropy [[1]] [[1/2]] = [[3/2]] ∧
    CostLayer.bp_first "Sigmoid" Sigmoid.derivativeM CostFunc.CrossEntropy [[1]] [[1/2]]
      = [[1/2]] ∧
    ¬ ([[3/2]] = ([[1/2]] : Mat)) := by
  refine ⟨?_, rfl, rfl, rfl, ?_, ?_, by norm_num, ?_, ?_, by norm_num⟩
  · simp [SubLayer.rootIdx, exampleChain]
  · simp [Layer.bpAt, exampleChain, Layer.bp, childIsSubAt, storedRootDeriv, storedRoot,
      Tanh.derivativeM, mapM2, hadamard, matMul, transposeM, List.range_succ]
    norm_num
  · simp [hadamard, matMul, transposeM, Sigmoid.derivativeM, mapM2, List.range_succ]
    norm_num
  · simp [CostLayer.bp_firstAt, exampleChain, CostLayer.bp_first, storedRootName,
      storedRootDeriv, storedRoot, CostLayer.cost_gradient, zipWith2D, hadamard, scalarM,
      Tanh.derivativeM, mapM2, matMul, transposeM, List.range_succ]
    norm_num
  · simp [CostLayer.bp_first, zipWith2D]
    norm_num

/-- C7 (amended): the `root` property of a sub-layer is derived by walking
`parent` links to a parentless node (first clause); but the root reference
actually used by `Layer.bp`'s `root.derivative` factor and by
`CostLayer.bp_first`'s root-activation check is the separately *stored*
`_root` attribute, which the `root` setter assigns and which can differ
from the derived root (second and third clauses). -/
theorem root_walk_and_stored_root_in_bp (chain : List ChainNode) :
    (∀ fuel i r, SubLayer.rootIdx chain fuel i = some r →
      ∃ nd, chain.get? r = some nd ∧ nd.parent = none) ∧
    (∀ i nd y w d, chain.get? i = some nd → nd.is_sub_layer = true →
      childIsSubAt chain nd = false →
      Layer.bpAt chain i y w d
        = nd.deriv_sub y (hadamard (matMul d (transposeM w))
            (storedRootDeriv chain nd y))) ∧
    (∀ i nd cost y yp, chain.get? i = some nd →
      CostLayer.bp_firstAt chain i cost y yp
        = CostLayer.bp_first (storedRootName chain nd) (storedRootDeriv chain nd)
            cost y yp) := by
  refine ⟨?_, ?_, ?_⟩
  · intro fuel
    induction fuel with
    | zero =>
      intro i r h
      simp [SubLayer.rootIdx] at h
    | succ n ih =>
      intro i r h
      rw [SubLayer.rootIdx] at h
      cases hp : (chain.get? i).bind ChainNode.parent with
      | none => rw [hp] at h; simp at h
      | some p =>
        rw [hp] at h
        dsimp only at h
        cases hq : chain.get? p with
        | none => rw [hq] at h; simp at h
        | some pnd =>
          rw [hq] at h
          dsimp only at h
          cases hpp : pnd.parent with
          | none =>
            rw [hpp] at h
            simp only [Option.some.injEq] at h
            subst h
            exact ⟨pnd, hq, hpp⟩
          | some q =>
            rw [hpp] at h
            exact ih p r h
  · intro i nd y w d hi hsub hchild
    simp only [Layer.bpAt, hi]
    simp [Layer.bp, hsub, hchild]
  · intro i nd cost y yp hi
    simp only [CostLayer.bp_firstAt, hi]

/-- Witness for `root_walk_and_stored_root_in_bp` at `exampleChain`,
node 1. -/
theorem root_walk_and_stored_root_in_bp_witness :
    (∃ nd, exampleChain.get? 0 = some nd ∧ nd.parent = none) ∧
    (Layer.bpAt exampleChain 1 [[1/2]] [[1]] [[1]]
      = (⟨true, some 0, none, some 2, "Sub", fun _ => [], fun _ d => d⟩ :
          ChainNode).deriv_sub [[1/2]]
          (hadamard (matMul [[1]] (transposeM [[1]]))
            (storedRootDeriv exampleChain
              ⟨true, some 0, none, some 2, "Sub", fun _ => [], fun _ d => d⟩ [[1/2]]))) ∧
    (CostLayer.bp_firstAt exampleChain 1 CostFunc.CrossEntropy [[1]] [[1/2]]
      = CostLayer.bp_first
          (storedRootName exampleChain
            ⟨true, some 0, none, some 2, "Sub", fun _ => [], fun _ d => d⟩)
          (storedRootDeriv exampleChain
            ⟨true, some 0, none, some 2, "Sub", fun _ => [], fun _ d => d⟩)
          CostFunc.CrossEntropy [[1]] [[1/2]]) :=
  ⟨(root_walk_and_stored_root_in_bp exampleChain).1 3 1 0
      (by simp [SubLayer.rootIdx, exampleChain]),
   (root_walk_and_stored_root_in_bp exampleChain).2.1 1
      ⟨true, some 0, none, some 2, "Sub", fun _ => [], fun _ d => d⟩
      [[1/2]] [[1]] [[1]] rfl rfl rfl,
   (root_walk_and_stored_root_in_bp exampleChain).2.2 1
      ⟨true, some 0, none, some 2, "Sub", fun _ => [], fun _ d => d⟩
      CostFunc.CrossEntropy [[1]] [[1/2]] rfl⟩
